import Mathlib

/-!
# Verification of the RideWise ridership dashboard (`src/final_project.py`)

Shallow embedding of the data-aggregation and recommendation pipeline of the
dashboard: column auto-detection, date-range and category filters, monthly and
hourly `groupby` aggregations, the heatmap pivot, and the role-based
recommendation with its quantile threshold.  Tables are lists of rows; numeric
cell values are rationals; nullable cells (unparseable dates / times) are
`Option`; Python exceptions raised by the dataframe library are `Except`
errors.
-/

/-! ## Strings: Python's `in` substring operator -/

/-- `charsStartWith s pat`: `pat` is a prefix of `s` (on character lists). -/
def charsStartWith : List Char → List Char → Bool
  | _, [] => true
  | [], _ :: _ => false
  | a :: as, b :: bs => a == b && charsStartWith as bs

/-- `charsContain s pat`: `pat` occurs contiguously somewhere in `s`. -/
def charsContain : List Char → List Char → Bool
  | [], pat => pat.isEmpty
  | a :: as, pat => charsStartWith (a :: as) pat || charsContain as pat

/-- Python's `s.lower()`, as a character list. -/
def lowerChars (s : String) : List Char :=
  s.toList.map Char.toLower

/-- Python's `pat in s.lower()` on strings. -/
def strContains (s pat : String) : Bool :=
  charsContain (lowerChars s) pat.toList

/-! ## Column auto-detection (`final_project.py:74-80` and `142-144`) -/

/-- The predicate of the list comprehension at `final_project.py:79,143`:
`"ridership" in c.lower() or "passenger" in c.lower()`. -/
def nameMatches (c : String) : Bool :=
  strContains c "ridership" || strContains c "passenger"

/-- Exceptions the dataframe library can raise in the modelled fragment. -/
inductive PandasError where
  | indexError
  | keyError
  | valueError
deriving DecidableEq, Repr

/-- Daily-table detection (`final_project.py:74-80`).  The code first guards
`len(numeric_cols) == 0` and issues `st.warning`, modelled by `none`;
otherwise `ridership_col = [c for c in numeric_cols if ...]` followed by
`ridership_col[0] if ridership_col else numeric_cols[0]`. -/
def detectColDaily (numericCols : List String) : Option String :=
  if numericCols.isEmpty then none
  else
    match numericCols.filter nameMatches with
    | c :: _ => some c
    | [] => numericCols.head?

/-- Hourly-table detection (`final_project.py:142-144`).  Same comprehension,
but with no emptiness guard: `numeric_cols[0]` on an empty list raises
`IndexError`. -/
def detectColHourly (numericCols : List String) : Except PandasError String :=
  match numericCols.filter nameMatches with
  | c :: _ => .ok c
  | [] =>
    match numericCols with
    | c :: _ => .ok c
    | [] => .error .indexError

/-! ## Dates and the daily table (`final_project.py:83-119`) -/

/-- A calendar date: `ym` is the absolute month index (year × 12 + month),
`d` the day of the month.  Calendar order is lexicographic on `(ym, d)`. -/
structure Date where
  ym : ℕ
  d : ℕ
deriving DecidableEq, Repr

/-- Calendar order on dates (the order pandas timestamps compare in). -/
def dateLe (a b : Date) : Bool :=
  a.ym < b.ym || (a.ym == b.ym && a.d ≤ b.d)

/-- Strict calendar order on dates. -/
def dateLt (a b : Date) : Bool :=
  a.ym < b.ym || (a.ym == b.ym && a.d < b.d)

/-- A row of the daily table after loading: `date` is `none` when
`pd.to_datetime(..., errors="coerce")` produced `NaT`; `vals` holds the
numeric cells keyed by column name. -/
structure DailyRow where
  date : Option Date
  line : String
  vals : List (String × ℚ)
deriving DecidableEq, Repr

/-- The loaded daily table; `hasLineCol` records whether a `"line"` column
exists (`final_project.py:83` checks `"line" in daily_df.columns`), and
`numericCols` the names of its numeric columns in declared order. -/
structure DailyTable where
  hasLineCol : Bool
  rows : List DailyRow
  numericCols : List String := []
deriving DecidableEq, Repr

/-- `daily_df["date"].between(start, end)` — inclusive on both ends; a `NaT`
date compares false and the row is dropped. -/
def dateBetween (d : Option Date) (s e : Date) : Bool :=
  match d with
  | none => false
  | some d => dateLe s d && dateLe d e

/-- The date-range filter (`final_project.py:83-91`): rows with date in
`[start, end]`, and, when a `"line"` column exists, whose line matches the
selection case-insensitively (`astype(str).str.lower() == line.lower()`). -/
def dailyFiltered (t : DailyTable) (s e : Date) (lineSel : String) : List DailyRow :=
  if t.hasLineCol then
    t.rows.filter (fun r =>
      dateBetween r.date s e && lowerChars r.line == lowerChars lineSel)
  else
    t.rows.filter (fun r => dateBetween r.date s e)

/-- Cell access for an existing numeric column (rows of the modelled tables
carry a value for every numeric column). -/
def getVal (r : DailyRow) (col : String) : ℚ :=
  (r.vals.lookup col).getD 0

/-- `date.dt.to_period("M").dt.to_timestamp()` (`final_project.py:95`):
truncate a date to the first day of its month. -/
def monthStart (d : Date) : Date :=
  ⟨d.ym, 1⟩

/-- Insert an element into a list, in front of the first element it is
`le`-below. -/
def insertLe {α : Type} (le : α → α → Bool) (a : α) : List α → List α
  | [] => [a]
  | b :: bs => if le a b then a :: b :: bs else b :: insertLe le a bs

/-- Insertion sort by a boolean relation. -/
def sortLe {α : Type} (le : α → α → Bool) : List α → List α
  | [] => []
  | a :: as => insertLe le a (sortLe le as)

/-- Sorted distinct group keys, as `groupby` produces them: deduplicate and
sort ascending. -/
def sortedKeys {α : Type} [DecidableEq α] (le : α → α → Bool) (l : List α) : List α :=
  sortLe le l.dedup

/-- The month keys of `groupby("month")`: sorted distinct first-of-month
dates of the rows (a null date never produces a group key). -/
def monthKeys (rows : List DailyRow) : List Date :=
  sortedKeys dateLe (rows.filterMap (fun r => r.date.map monthStart))

/-- One group's aggregate in `groupby("month")[col].sum()`. -/
def monthTotal (rows : List DailyRow) (col : String) (m : Date) : ℚ :=
  ((rows.filter (fun r => r.date.map monthStart == some m)).map
    (fun r => getVal r col)).sum

/-- `monthly_summary` (`final_project.py:98-100`): one row per month present,
ascending by month, carrying the month's total of the detected column. -/
def monthlySummary (rows : List DailyRow) (col : String) : List (Date × ℚ) :=
  (monthKeys rows).map (fun m => (m, monthTotal rows col m))

/-- `monthly_summary[ridership_col].mean()` (`final_project.py:114`). -/
def monthlyAvg (rows : List DailyRow) (col : String) : ℚ :=
  let ts := (monthlySummary rows col).map Prod.snd
  ts.sum / ts.length

/-- `.loc[series.idxmax()]`: the first row attaining the maximum of the
second component (`idxmax` returns the first index of the maximum). -/
def idxmaxBySnd {α : Type} : List (α × ℚ) → Option (α × ℚ)
  | [] => none
  | x :: xs => some (xs.foldl (fun best p => if best.2 < p.2 then p else best) x)

/-- `peak = monthly_summary.loc[monthly_summary[ridership_col].idxmax()]`
(`final_project.py:115`). -/
def peakMonth (rows : List DailyRow) (col : String) : Option (Date × ℚ) :=
  idxmaxBySnd (monthlySummary rows col)

/-- Sample daily row for concrete instantiations. -/
def sampleDailyRow : DailyRow :=
  { date := some ⟨24300, 15⟩, line := "Pelabuhan Klang", vals := [("ridership", 1000)] }

/-- Sample daily table with a `"line"` column. -/
def sampleDailyTable : DailyTable :=
  { hasLineCol := true, rows := [sampleDailyRow] }

/-- Two daily rows in consecutive months with equal ridership, to exercise
the peak-month tie-break. -/
def tieRowA : DailyRow :=
  { date := some ⟨100, 5⟩, line := "KTM", vals := [("ridership", 7)] }

/-- Second row of the tie-break example (later month, same total). -/
def tieRowB : DailyRow :=
  { date := some ⟨101, 3⟩, line := "KTM", vals := [("ridership", 7)] }

/-! ## The hourly table (`final_project.py:124-232`) -/

/-- A row of the hourly table after loading and hour extraction
(`final_project.py:134-137`): `hour` is `none` when the `time` value failed
to parse (`errors="coerce"` gives `NaT`, whose `.dt.hour` is null). -/
structure HourlyRow where
  dayType : String
  lineTag : String
  hour : Option ℕ
  vals : List (String × ℚ)
deriving DecidableEq, Repr

/-- The loaded hourly table: all column names in declared order, the numeric
ones among them (same order, including the derived `hour` column), and the
rows. -/
structure HourlyTable where
  cols : List String
  numericCols : List String
  rows : List HourlyRow
deriving DecidableEq, Repr

/-- The category filter (`final_project.py:127-130`): case-insensitive exact
match of `day_type` and `line_tag` against the selections
(`astype(str).str.lower() == selection.lower()`). -/
def categoryFilter (t : HourlyTable) (dayTypeSel lineSel : String) : HourlyTable :=
  { t with
    rows := t.rows.filter (fun r =>
      lowerChars r.dayType == lowerChars dayTypeSel &&
      lowerChars r.lineTag == lowerChars lineSel) }

/-- Cell access in an hourly row (rows carry a value for every numeric
column). -/
def getValH (r : HourlyRow) (col : String) : ℚ :=
  (r.vals.lookup col).getD 0

/-- The hour keys of `groupby("hour")`: sorted distinct non-null hours
(pandas drops null group keys rather than coercing them to 0). -/
def hourKeys (rows : List HourlyRow) : List ℕ :=
  sortedKeys Nat.ble (rows.filterMap (fun r => r.hour))

/-- One group's aggregate in `groupby("hour")[col].mean()`: arithmetic mean
of the column over the rows with that (non-null) hour. -/
def hourMean (rows : List HourlyRow) (col : String) (h : ℕ) : ℚ :=
  let vs := (rows.filter (fun r => r.hour == some h)).map (fun r => getValH r col)
  vs.sum / vs.length

/-- `hourly_avg` (`final_project.py:147-152`): mean of the detected column
per hour, ascending by hour. -/
def hourlyAvg (rows : List HourlyRow) (col : String) : List (ℕ × ℚ) :=
  (hourKeys rows).map (fun h => (h, hourMean rows col h))

/-- `peak_hour = hourly_avg.loc[hourly_avg[ridership_col].idxmax(), "hour"]`
(`final_project.py:176`): hour of the first row attaining the maximum. -/
def peakHour (rows : List HourlyRow) (col : String) : Option ℕ :=
  (idxmaxBySnd (hourlyAvg rows col)).map Prod.fst

/-! ## Quantiles and the role-based recommendation (`final_project.py:207-232`) -/

/-- `Series.quantile(p)` with pandas' default linear interpolation
(`final_project.py:212,230`): on the sorted values `v₀ … v_{n-1}` with
`h = p·(n-1)` and `i = ⌊h⌋`, returns `v_i + (h - i)·(v_{i+1} - v_i)`,
reading `v_{i+1}` as `v_i` past the upper end. -/
def quantileLinear (p : ℚ) (vs : List ℚ) : ℚ :=
  let s := sortLe (fun a b => a ≤ b) vs
  let h : ℚ := p * ((s.length : ℚ) - 1)
  let i : ℕ := (⌊h⌋).toNat
  let lo := s.getD i 0
  let hi := s.getD (i + 1) lo
  lo + (h - (i : ℚ)) * (hi - lo)

/-- The spec's own percentile definition (§4.3 step 6), kept as a separate
definition for comparison against the code's `quantileLinear`: for sorted
values, index `p·(n-1)`, interpolating between the values at the floor and
the ceiling of that index. -/
def specPercentile (p : ℚ) (vs : List ℚ) : ℚ :=
  let s := sortLe (fun a b => a ≤ b) vs
  let idx : ℚ := p * ((s.length : ℚ) - 1)
  let lo := s.getD (⌊idx⌋).toNat 0
  let hi := s.getD (⌈idx⌉).toNat 0
  lo + (idx - ((⌊idx⌋ : ℤ) : ℚ)) * (hi - lo)

/-- `threshold = avg_ridership["ridership"].quantile(0.3)`
(`final_project.py:212`). -/
def touristThreshold (avg : List (ℕ × ℚ)) : ℚ :=
  quantileLinear (3 / 10) (avg.map Prod.snd)

/-- `recommended = avg_ridership[avg_ridership["ridership"] <= threshold]`,
read off as its `hour` column (`final_project.py:213-214`). -/
def touristRecommended (avg : List (ℕ × ℚ)) : List ℕ :=
  (avg.filter (fun p => p.2 ≤ touristThreshold avg)).map Prod.fst

/-- Worker recommendation (`final_project.py:217-221`):
`hour.between(7, 9) | hour.between(17, 19)`, both inclusive. -/
def workerRecommended (avg : List (ℕ × ℚ)) : List ℕ :=
  (avg.filter (fun p => (7 ≤ p.1 && p.1 ≤ 9) || (17 ≤ p.1 && p.1 ≤ 19))).map Prod.fst

/-- The reference line of the recommendation chart (`final_project.py:230`):
`threshold if role == "Tourist" else avg_ridership["ridership"].quantile(0.7)`. -/
def displayedThreshold (role : String) (avg : List (ℕ × ℚ)) : ℚ :=
  if role == "Tourist" then touristThreshold avg
  else quantileLinear (7 / 10) (avg.map Prod.snd)

/-! ## The four dashboard blocks and the recomputation pass -/

/-- How a dashboard block renders for a given selection: an explicit
`st.warning` "no data" message, an explicit configuration warning, a shown
chart, a silent skip (nothing rendered on that path), or a raised library
exception. -/
inductive Rendered (α : Type) where
  | warnNoData
  | warnConfig
  | shown (a : α)
  | skipped
  | raised (e : PandasError)
deriving DecidableEq, Repr

/-- Lexicographic order on character lists (how pandas sorts string group
keys). -/
def charsLe : List Char → List Char → Bool
  | [], _ => true
  | _ :: _, [] => false
  | a :: as, b :: bs => if a == b then charsLe as bs else decide (a < b)

/-- Lexicographic order on strings. -/
def strLeLex (a b : String) : Bool :=
  charsLe a.toList b.toList

/-- The `day_type` column keys of the pivot, sorted. -/
def dayTypeKeys (rows : List HourlyRow) : List String :=
  sortedKeys strLeLex (rows.map (fun r => r.dayType))

/-- One heatmap cell: mean of the `"ridership"` column over the rows of one
(hour, day_type) pair; absent — not zero — when no row matches. -/
def pivotCell (rows : List HourlyRow) (h : ℕ) (d : String) : Option (String × ℚ) :=
  let cell := rows.filter (fun r => r.hour == some h && r.dayType == d)
  if cell.isEmpty then none
  else some (d, (cell.map (fun r => getValH r "ridership")).sum / (cell.length : ℚ))

/-- `pivot_table(values="ridership", index="hour", columns="day_type",
aggfunc="mean")` (`final_project.py:188-193`), as rows indexed by hour. -/
def pivotMatrix (rows : List HourlyRow) : List (ℕ × List (String × ℚ)) :=
  (hourKeys rows).map (fun h => (h, (dayTypeKeys rows).filterMap (pivotCell rows h)))

/-- The monthly block (`final_project.py:74-122`): a configuration warning
when the daily table has no numeric column; a "no monthly data" warning when
the filtered rows are empty; otherwise the summary, its mean and the peak
row (`idxmax` on an empty summary would raise `ValueError`). -/
def monthlyBlock (numericCols : List String) (rows : List DailyRow) :
    Rendered (List (Date × ℚ) × ℚ × (Date × ℚ)) :=
  match detectColDaily numericCols with
  | none => .warnConfig
  | some col =>
    if rows.isEmpty then .warnNoData
    else
      match peakMonth rows col with
      | some pk => .shown (monthlySummary rows col, monthlyAvg rows col, pk)
      | none => .raised .valueError

/-- The hourly block (`final_project.py:132-183`): a "no data" warning when
the category-filtered table is empty; otherwise column detection (an
`IndexError` when no numeric column exists) and the per-hour averages with
the peak hour (`idxmax` on an all-null-hours table raises `ValueError`). -/
def hourlyBlock (t : HourlyTable) : Rendered (List (ℕ × ℚ) × ℕ) :=
  if t.rows.isEmpty then .warnNoData
  else
    match detectColHourly t.numericCols with
    | .error e => .raised e
    | .ok col =>
      match peakHour t.rows col with
      | some ph => .shown (hourlyAvg t.rows col, ph)
      | none => .raised .valueError

/-- The heatmap block (`final_project.py:186-200`): guarded only by presence
of the `day_type` column, so an empty filtered table still reaches
`pivot_table` (which yields an empty frame, with no "no data" message);
`values="ridership"` raises a `KeyError` when no column of that exact name
exists. -/
def heatmapBlock (t : HourlyTable) : Rendered (List (ℕ × List (String × ℚ))) :=
  if t.cols.contains "day_type" then
    if t.cols.contains "ridership" then .shown (pivotMatrix t.rows)
    else .raised .keyError
  else .skipped

/-- The recommendation block (`final_project.py:207-232`): guarded by
non-emptiness of the filtered table — an empty table skips the whole block
silently, with no message; `groupby("hour")["ridership"]` reads the literal
`"ridership"` column and raises a `KeyError` when it is absent. -/
def recommendationBlock (t : HourlyTable) (role : String) : Rendered (List ℕ × ℚ) :=
  if t.rows.isEmpty then .skipped
  else if t.cols.contains "ridership" then
    if role == "Tourist" then
      .shown (touristRecommended (hourlyAvg t.rows "ridership"),
        displayedThreshold role (hourlyAvg t.rows "ridership"))
    else
      .shown (workerRecommended (hourlyAvg t.rows "ridership"),
        displayedThreshold role (hourlyAvg t.rows "ridership"))
  else .raised .keyError

/-- The user's selections for one recomputation pass. -/
structure Selections where
  role : String
  dayTypeSel : String
  lineSel : String
  startDate : Date
  endDate : Date
deriving DecidableEq, Repr

/-- The process-wide cache of the two loaded tables (`@st.cache_data`). -/
structure SessionState where
  dailyCache : DailyTable
  hourlyCache : HourlyTable
deriving DecidableEq, Repr

/-- The four chart-ready outputs of one pass. -/
structure Outputs where
  monthly : Rendered (List (Date × ℚ) × ℚ × (Date × ℚ))
  hourly : Rendered (List (ℕ × ℚ) × ℕ)
  heatmap : Rendered (List (ℕ × List (String × ℚ)))
  recommendation : Rendered (List ℕ × ℚ)
deriving DecidableEq, Repr

/-- One full recomputation pass over the cached tables, with the cache
threaded explicitly.  Both filters are pandas boolean-mask selections, which
return fresh copies of the selected rows; the column assignments
`daily_filtered["month"] = …` (line 95) and `hourly_filtered["hour"] = …`
(line 135) therefore write to those copies and never to the cached frames,
so the pass hands the cache back unchanged. -/
def runPipeline (s : SessionState) (sel : Selections) : SessionState × Outputs :=
  let dailyRows := dailyFiltered s.dailyCache sel.startDate sel.endDate sel.lineSel
  let ft := categoryFilter s.hourlyCache sel.dayTypeSel sel.lineSel
  (s,
   { monthly := monthlyBlock s.dailyCache.numericCols dailyRows
     hourly := hourlyBlock ft
     heatmap := heatmapBlock ft
     recommendation := recommendationBlock ft sel.role })

/-- Sample hourly rows: equal peak averages at hours 7 and 8, plus a row
whose time failed to parse (null hour). -/
def hRow7 : HourlyRow :=
  { dayType := "Weekday", lineTag := "KTM", hour := some 7, vals := [("ridership", 9)] }

/-- Second sample row (hour 8, same average as hour 7). -/
def hRow8 : HourlyRow :=
  { dayType := "Weekday", lineTag := "KTM", hour := some 8, vals := [("ridership", 9)] }

/-- Sample row with an unparseable time (null hour). -/
def hRowNoTime : HourlyRow :=
  { dayType := "Weekday", lineTag := "KTM", hour := none, vals := [("ridership", 50)] }

/-- A loaded hourly table with the source's expected columns and one weekday
row. -/
def sampleHourlyTable : HourlyTable :=
  { cols := ["time", "day_type", "line_tag", "ridership", "hour"],
    numericCols := ["ridership", "hour"],
    rows := [hRow7] }

/-- An hourly row whose count column is named `passenger_count`. -/
def passengerRow : HourlyRow :=
  { dayType := "Weekday", lineTag := "KTM", hour := some 8,
    vals := [("passenger_count", 5)] }

/-- An hourly table whose count column is named `passenger_count` instead of
`ridership` (auto-detection accepts it; the hard-coded accesses do not). -/
def passengerTable : HourlyTable :=
  { cols := ["time", "day_type", "line_tag", "passenger_count", "hour"],
    numericCols := ["passenger_count", "hour"],
    rows := [passengerRow] }

/-! ## Theorems: C1, C8 -/

/-- C1 counterexample: the claim says that when both a "passenger"-named and a
"ridership"-named numeric column exist, the "ridership"-named one is chosen
regardless of declared order.  The code keeps the comprehension's declared
order and takes element 0, so with `["passenger_count", "ridership_count"]`
it picks `passenger_count`, not `ridership_count`. -/
theorem C1_counterexample :
    detectColDaily ["passenger_count", "ridership_count"] = some "passenger_count" ∧
    detectColHourly ["passenger_count", "ridership_count"] = .ok "passenger_count" ∧
    detectColDaily ["passenger_count", "ridership_count"] ≠ some "ridership_count" := by
  refine ⟨by decide, by rfl, by decide⟩

/-- C1 (amended): on both detection paths, auto-detection returns the first
numeric column (in declared order) whose lowercased name contains
"ridership" or "passenger" — with no preference between the two substrings —
and when no column matches, the first numeric column in declared order. -/
theorem C1_detection_first_match :
    (∀ (pre : List String) (c : String) (post : List String),
        (∀ d ∈ pre, nameMatches d = false) → nameMatches c = true →
        detectColDaily (pre ++ c :: post) = some c ∧
        detectColHourly (pre ++ c :: post) = .ok c) ∧
    (∀ (c : String) (post : List String),
        (∀ d ∈ c :: post, nameMatches d = false) →
        detectColDaily (c :: post) = some c ∧
        detectColHourly (c :: post) = .ok c) := by
  constructor
  · intro pre c post hpre hc
    have hfil : (pre ++ c :: post).filter nameMatches
        = c :: post.filter nameMatches := by
      rw [List.filter_append]
      have : pre.filter nameMatches = [] := by
        simp only [List.filter_eq_nil_iff]
        intro d hd
        simp [hpre d hd]
      rw [this, List.nil_append, List.filter_cons_of_pos hc]
    constructor
    · unfold detectColDaily
      rw [hfil]
      simp
    · unfold detectColHourly
      rw [hfil]
  · intro c post hall
    have hfil : (c :: post).filter nameMatches = [] := by
      simp only [List.filter_eq_nil_iff]
      intro d hd
      simp [hall d hd]
    constructor
    · unfold detectColDaily
      rw [hfil]
      simp
    · unfold detectColHourly
      rw [hfil]

/-- Witness for C1 (amended), on the spec's own test vectors:
`[x, ridership_count, y] ↦ ridership_count` and `[a, b] ↦ a`. -/
theorem C1_detection_first_match_witness :
    detectColDaily ["x", "ridership_count", "y"] = some "ridership_count" ∧
    detectColDaily ["a", "b"] = some "a" := by
  refine ⟨(C1_detection_first_match.1 ["x"] "ridership_count" ["y"] ?_ ?_).1,
          (C1_detection_first_match.2 "a" ["b"] ?_).1⟩
  · decide
  · decide
  · decide

/-- C8: at the failing input (a table with zero numeric columns), the hourly
detection path raises an uncaught `IndexError` (`numeric_cols[0]` on an empty
list, `final_project.py:144`) instead of signalling the configuration error
that the guarded daily path (`final_project.py:75-76`, modelled by `none`)
produces. -/
theorem C8_hourly_zero_numeric_raises :
    detectColHourly [] = .error .indexError ∧ detectColDaily [] = none :=
  ⟨rfl, rfl⟩

/-! ## Order lemmas for dates -/

theorem dateLe_trans (a b c : Date) (hab : dateLe a b = true) (hbc : dateLe b c = true) :
    dateLe a c = true := by
  obtain ⟨aym, ad⟩ := a
  obtain ⟨bym, bd⟩ := b
  obtain ⟨cym, cd⟩ := c
  simp only [dateLe, Bool.or_eq_true, decide_eq_true_eq, Bool.and_eq_true,
    beq_iff_eq] at *
  omega

theorem dateLe_total (a b : Date) : (dateLe a b || dateLe b a) = true := by
  obtain ⟨aym, ad⟩ := a
  obtain ⟨bym, bd⟩ := b
  simp only [dateLe, Bool.or_eq_true, decide_eq_true_eq, Bool.and_eq_true,
    beq_iff_eq]
  omega

theorem dateLt_of_le_of_ne (a b : Date) (hle : dateLe a b = true) (hne : a ≠ b) :
    dateLt a b = true := by
  obtain ⟨aym, ad⟩ := a
  obtain ⟨bym, bd⟩ := b
  simp only [dateLe, dateLt, Bool.or_eq_true, decide_eq_true_eq, Bool.and_eq_true,
    beq_iff_eq, ne_eq, Date.mk.injEq, not_and] at *
  omega

theorem dateLe_of_lt (a b : Date) (h : dateLt a b = true) : dateLe a b = true := by
  obtain ⟨aym, ad⟩ := a
  obtain ⟨bym, bd⟩ := b
  simp only [dateLe, dateLt, Bool.or_eq_true, decide_eq_true_eq, Bool.and_eq_true,
    beq_iff_eq] at *
  omega

/-! ## Theorem: C7 -/

/-- C7: every row of the date-filtered daily result has a (non-null) date in
`[start, end]` inclusive; every daily row with a non-null date in range — and
matching the line filter when a line column exists — is retained; and for
`start > end` the result is empty rather than an error. -/
theorem C7_date_range_filter (t : DailyTable) (s e : Date) (lineSel : String) :
    (∀ r ∈ dailyFiltered t s e lineSel,
        ∃ d, r.date = some d ∧ dateLe s d = true ∧ dateLe d e = true) ∧
    (∀ r ∈ t.rows, ∀ d, r.date = some d → dateLe s d = true → dateLe d e = true →
        (t.hasLineCol = true → lowerChars r.line = lowerChars lineSel) →
        r ∈ dailyFiltered t s e lineSel) ∧
    (dateLe s e = false → dailyFiltered t s e lineSel = []) := by
  have hbet : ∀ r : DailyRow, dateBetween r.date s e = true →
      ∃ d, r.date = some d ∧ dateLe s d = true ∧ dateLe d e = true := by
    intro r h
    cases hd : r.date with
    | none => rw [hd] at h; simp [dateBetween] at h
    | some d =>
      rw [hd] at h
      simp only [dateBetween, Bool.and_eq_true] at h
      exact ⟨d, rfl, h.1, h.2⟩
  refine ⟨?_, ?_, ?_⟩
  · intro r hr
    unfold dailyFiltered at hr
    by_cases hL : t.hasLineCol = true
    · rw [if_pos hL] at hr
      have := (List.mem_filter.mp hr).2
      exact hbet r (Bool.and_eq_true _ _ ▸ this).1
    · rw [if_neg hL] at hr
      exact hbet r (List.mem_filter.mp hr).2
  · intro r hr d hd hs he hline
    have hbet' : dateBetween r.date s e = true := by
      rw [hd]; simp only [dateBetween, Bool.and_eq_true]; exact ⟨hs, he⟩
    unfold dailyFiltered
    by_cases hL : t.hasLineCol = true
    · rw [if_pos hL]
      refine List.mem_filter.mpr ⟨hr, ?_⟩
      simp only [Bool.and_eq_true, beq_iff_eq]
      exact ⟨hbet', hline hL⟩
    · rw [if_neg hL]
      exact List.mem_filter.mpr ⟨hr, hbet'⟩
  · intro hse
    have hnone : ∀ r : DailyRow, dateBetween r.date s e = false := by
      intro r
      cases hd : r.date with
      | none => simp [dateBetween]
      | some d =>
        by_contra hne
        have h : dateBetween (some d) s e = true := by
          cases h' : dateBetween (some d) s e
          · exact absurd h' hne
          · rfl
        simp only [dateBetween, Bool.and_eq_true] at h
        exact absurd (dateLe_trans s d e h.1 h.2) (by simp [hse])
    unfold dailyFiltered
    by_cases hL : t.hasLineCol = true
    · rw [if_pos hL]
      refine List.filter_eq_nil_iff.mpr ?_
      intro r _
      simp [hnone r]
    · rw [if_neg hL]
      refine List.filter_eq_nil_iff.mpr ?_
      intro r _
      simp [hnone r]

/-- Witness for C7: the sample row (date 2025-month-index 24300, day 15) is
kept by the filter over [day 1, day 31] of the same month with a
case-insensitively matching line selection. -/
theorem C7_date_range_filter_witness :
    sampleDailyRow ∈ dailyFiltered sampleDailyTable ⟨24300, 1⟩ ⟨24300, 31⟩ "pelabuhan klang" :=
  (C7_date_range_filter sampleDailyTable ⟨24300, 1⟩ ⟨24300, 31⟩ "pelabuhan klang").2.1
    sampleDailyRow (by decide) ⟨24300, 15⟩ (by decide) (by decide) (by decide)
    (fun _ => by decide)

/-! ## Sorting lemmas -/

theorem insertLe_perm {α : Type} (le : α → α → Bool) (a : α) (l : List α) :
    List.Perm (insertLe le a l) (a :: l) := by
  induction l with
  | nil => exact List.Perm.refl _
  | cons b bs ih =>
    unfold insertLe
    by_cases h : le a b = true
    · rw [if_pos h]
    · rw [if_neg h]
      exact (ih.cons b).trans (List.Perm.swap a b bs)

theorem sortLe_perm {α : Type} (le : α → α → Bool) (l : List α) :
    List.Perm (sortLe le l) l := by
  induction l with
  | nil => exact List.Perm.refl _
  | cons a as ih =>
    unfold sortLe
    exact (insertLe_perm le a (sortLe le as)).trans (ih.cons a)

theorem mem_insertLe {α : Type} (le : α → α → Bool) (a x : α) (l : List α) :
    x ∈ insertLe le a l ↔ x = a ∨ x ∈ l :=
  ((insertLe_perm le a l).mem_iff).trans List.mem_cons

theorem mem_sortLe {α : Type} (le : α → α → Bool) (x : α) (l : List α) :
    x ∈ sortLe le l ↔ x ∈ l :=
  (sortLe_perm le l).mem_iff

theorem pairwise_insertLe {α : Type} (le : α → α → Bool)
    (htrans : ∀ a b c, le a b = true → le b c = true → le a c = true)
    (htotal : ∀ a b, (le a b || le b a) = true) (a : α) (l : List α)
    (hl : l.Pairwise (fun x y => le x y = true)) :
    (insertLe le a l).Pairwise (fun x y => le x y = true) := by
  induction l with
  | nil => simp [insertLe]
  | cons b bs ih =>
    rw [List.pairwise_cons] at hl
    unfold insertLe
    by_cases h : le a b = true
    · rw [if_pos h]
      refine List.pairwise_cons.mpr ⟨?_, List.pairwise_cons.mpr hl⟩
      intro x hx
      rcases List.mem_cons.mp hx with hx | hx
      · rw [hx]; exact h
      · exact htrans a b x h (hl.1 x hx)
    · rw [if_neg h]
      have hba : le b a = true := by
        rcases Bool.or_eq_true _ _ |>.mp (htotal a b) with h' | h'
        · exact absurd h' h
        · exact h'
      refine List.pairwise_cons.mpr ⟨?_, ih hl.2⟩
      intro x hx
      rcases (mem_insertLe le a x bs).mp hx with hx | hx
      · rw [hx]; exact hba
      · exact hl.1 x hx

theorem pairwise_sortLe {α : Type} (le : α → α → Bool)
    (htrans : ∀ a b c, le a b = true → le b c = true → le a c = true)
    (htotal : ∀ a b, (le a b || le b a) = true) (l : List α) :
    (sortLe le l).Pairwise (fun x y => le x y = true) := by
  induction l with
  | nil => simp [sortLe]
  | cons a as ih =>
    unfold sortLe
    exact pairwise_insertLe le htrans htotal a (sortLe le as) ih

theorem mem_sortedKeys {α : Type} [DecidableEq α] (le : α → α → Bool) (l : List α) (a : α) :
    a ∈ sortedKeys le l ↔ a ∈ l := by
  unfold sortedKeys
  rw [mem_sortLe, List.mem_dedup]

theorem nodup_sortedKeys {α : Type} [DecidableEq α] (le : α → α → Bool) (l : List α) :
    (sortedKeys le l).Nodup :=
  ((sortLe_perm le l.dedup).nodup_iff).mpr (List.nodup_dedup l)

theorem pairwise_sortedKeys {α : Type} [DecidableEq α] (le : α → α → Bool)
    (htrans : ∀ a b c, le a b = true → le b c = true → le a c = true)
    (htotal : ∀ a b, (le a b || le b a) = true) (l : List α) :
    (sortedKeys le l).Pairwise (fun x y => le x y = true) :=
  pairwise_sortLe le htrans htotal l.dedup

theorem dateLe_refl (a : Date) : dateLe a a = true := by
  obtain ⟨aym, ad⟩ := a
  simp [dateLe]

theorem monthKeys_pairwise (rows : List DailyRow) :
    (monthKeys rows).Pairwise (fun a b => dateLt a b = true) := by
  unfold monthKeys
  have h1 := pairwise_sortedKeys dateLe dateLe_trans dateLe_total
      (rows.filterMap (fun r => r.date.map monthStart))
  have h2 := nodup_sortedKeys dateLe (rows.filterMap (fun r => r.date.map monthStart))
  exact (h1.and h2).imp (fun h => dateLt_of_le_of_ne _ _ h.1 h.2)

theorem mem_monthKeys (rows : List DailyRow) (m : Date) :
    m ∈ monthKeys rows ↔ ∃ r ∈ rows, ∃ d, r.date = some d ∧ monthStart d = m := by
  unfold monthKeys
  rw [mem_sortedKeys, List.mem_filterMap]
  constructor
  · rintro ⟨r, hr, hmap⟩
    obtain ⟨d, hd, hds⟩ := Option.map_eq_some'.mp hmap
    exact ⟨r, hr, d, hd, hds⟩
  · rintro ⟨r, hr, d, hd, hds⟩
    refine ⟨r, hr, ?_⟩
    rw [hd]
    simpa using hds

theorem mem_monthlySummary (rows : List DailyRow) (col : String) (m : Date) (q : ℚ) :
    (m, q) ∈ monthlySummary rows col ↔
      m ∈ monthKeys rows ∧ q = monthTotal rows col m := by
  unfold monthlySummary
  rw [List.mem_map]
  constructor
  · rintro ⟨k, hk, hkeq⟩
    simp only [Prod.mk.injEq] at hkeq
    obtain ⟨h1, h2⟩ := hkeq
    subst h1
    exact ⟨hk, h2.symm⟩
  · rintro ⟨hm, hq⟩
    exact ⟨m, hm, by rw [hq]⟩

theorem foldl_pickMax_split {α : Type} (xs : List (α × ℚ)) (x : α × ℚ) :
    ∃ l₁ l₂,
      x :: xs = l₁ ++ (xs.foldl (fun best p => if best.2 < p.2 then p else best) x) :: l₂ ∧
      (∀ y ∈ l₁, y.2 < (xs.foldl (fun best p => if best.2 < p.2 then p else best) x).2) ∧
      (∀ y ∈ x :: xs, y.2 ≤ (xs.foldl (fun best p => if best.2 < p.2 then p else best) x).2) := by
  induction xs generalizing x with
  | nil =>
    refine ⟨[], [], rfl, by simp, ?_⟩
    intro y hy
    rw [List.foldl_nil]
    rw [List.mem_singleton.mp hy]
  | cons p xs ih =>
    simp only [List.foldl_cons]
    by_cases hxp : x.2 < p.2
    · rw [if_pos hxp]
      obtain ⟨l₁, l₂, heq, hlt, hle⟩ := ih p
      have hpm : p.2 ≤ (xs.foldl (fun best p => if best.2 < p.2 then p else best) p).2 :=
        hle p (List.mem_cons_self p xs)
      refine ⟨x :: l₁, l₂, ?_, ?_, ?_⟩
      · rw [List.cons_append, ← heq]
      · intro y hy
        rcases List.mem_cons.mp hy with hy | hy
        · rw [hy]; exact lt_of_lt_of_le hxp hpm
        · exact hlt y hy
      · intro y hy
        rcases List.mem_cons.mp hy with hy | hy
        · rw [hy]; exact le_of_lt (lt_of_lt_of_le hxp hpm)
        · exact hle y hy
    · rw [if_neg hxp]
      have hpx : p.2 ≤ x.2 := le_of_not_lt hxp
      obtain ⟨l₁, l₂, heq, hlt, hle⟩ := ih x
      have hxm : x.2 ≤ (xs.foldl (fun best p => if best.2 < p.2 then p else best) x).2 :=
        hle x (List.mem_cons_self x xs)
      cases l₁ with
      | nil =>
        simp only [List.nil_append] at heq
        obtain ⟨hx, hxs⟩ := List.cons_eq_cons.mp heq
        refine ⟨[], p :: l₂, ?_, by simp, ?_⟩
        · rw [List.nil_append, ← hx, ← hxs]
        · intro y hy
          rcases List.mem_cons.mp hy with hy | hy
          · rw [hy]; exact hxm
          rcases List.mem_cons.mp hy with hy | hy
          · rw [hy]; exact le_trans hpx hxm
          · exact hle y (List.mem_cons_of_mem x hy)
      | cons a l₁' =>
        simp only [List.cons_append] at heq
        obtain ⟨hx, hxs⟩ := List.cons_eq_cons.mp heq
        have hxlt : x.2 < (xs.foldl (fun best p => if best.2 < p.2 then p else best) x).2 := by
          have h := hlt a (List.mem_cons_self a l₁')
          rw [← hx] at h
          exact h
        refine ⟨x :: p :: l₁', l₂, ?_, ?_, ?_⟩
        · rw [List.cons_append, List.cons_append, ← hxs]
        · intro y hy
          rcases List.mem_cons.mp hy with hy | hy
          · rw [hy]; exact hxlt
          rcases List.mem_cons.mp hy with hy | hy
          · rw [hy]; exact lt_of_le_of_lt hpx hxlt
          · exact hlt y (List.mem_cons_of_mem a hy)
        · intro y hy
          rcases List.mem_cons.mp hy with hy | hy
          · rw [hy]; exact hxm
          rcases List.mem_cons.mp hy with hy | hy
          · rw [hy]; exact le_trans hpx hxm
          · exact hle y (List.mem_cons_of_mem x hy)

theorem idxmaxBySnd_split {α : Type} (l : List (α × ℚ)) (x : α × ℚ)
    (h : idxmaxBySnd l = some x) :
    ∃ l₁ l₂, l = l₁ ++ x :: l₂ ∧ (∀ y ∈ l₁, y.2 < x.2) ∧ ∀ y ∈ l, y.2 ≤ x.2 := by
  cases l with
  | nil => simp [idxmaxBySnd] at h
  | cons a xs =>
    have h' : xs.foldl (fun best p => if best.2 < p.2 then p else best) a = x := by
      simpa [idxmaxBySnd] using h
    obtain ⟨l₁, l₂, heq, hlt, hle⟩ := foldl_pickMax_split xs a
    rw [h'] at heq hlt hle
    exact ⟨l₁, l₂, heq, hlt, hle⟩

/-! ## Theorem: C6 -/

/-- C6: monthly aggregation truncates each date-filtered daily row's date to
the first of its month, groups by month and sums the detected ridership
column, producing exactly one row per month present, in ascending month
order; the reported average is the arithmetic mean of the monthly totals, and
the reported peak month is the month with the maximum total, with ties broken
by the earliest such month. -/
theorem C6_monthly_aggregation (rows : List DailyRow) (col : String) :
    ((monthlySummary rows col).map Prod.fst).Pairwise (fun a b => dateLt a b = true) ∧
    (∀ m : Date, (∃ q, (m, q) ∈ monthlySummary rows col) ↔
        ∃ r ∈ rows, ∃ d, r.date = some d ∧ monthStart d = m) ∧
    (∀ m q, (m, q) ∈ monthlySummary rows col →
        q = ((rows.filter (fun r => r.date.map monthStart == some m)).map
              (fun r => getVal r col)).sum) ∧
    monthlyAvg rows col
      = ((monthlySummary rows col).map Prod.snd).sum
        / (((monthlySummary rows col).map Prod.snd).length : ℚ) ∧
    (∀ m q, peakMonth rows col = some (m, q) →
        (m, q) ∈ monthlySummary rows col ∧
        ∀ m' q', (m', q') ∈ monthlySummary rows col →
          q' ≤ q ∧ (q' = q → dateLe m m' = true)) := by
  have hfst : (monthlySummary rows col).map Prod.fst = monthKeys rows := by
    unfold monthlySummary
    rw [List.map_map,
      show (Prod.fst ∘ fun m => (m, monthTotal rows col m)) = id from rfl,
      List.map_id]
  refine ⟨?_, ?_, ?_, ?_, ?_⟩
  · rw [hfst]
    exact monthKeys_pairwise rows
  · intro m
    constructor
    · rintro ⟨q, hq⟩
      exact (mem_monthKeys rows m).mp ((mem_monthlySummary rows col m q).mp hq).1
    · intro h
      exact ⟨monthTotal rows col m,
        (mem_monthlySummary rows col m _).mpr ⟨(mem_monthKeys rows m).mpr h, rfl⟩⟩
  · intro m q hq
    have h := ((mem_monthlySummary rows col m q).mp hq).2
    simpa [monthTotal] using h
  · rfl
  · intro m q hpk
    obtain ⟨l₁, l₂, heq, hlt, hle⟩ :=
      idxmaxBySnd_split (monthlySummary rows col) (m, q) hpk
    have hmem : (m, q) ∈ monthlySummary rows col := by
      rw [heq]
      exact List.mem_append_right l₁ (List.mem_cons_self _ _)
    refine ⟨hmem, ?_⟩
    intro m' q' hq'
    refine ⟨hle (m', q') hq', ?_⟩
    intro heqq
    have hp : ((monthlySummary rows col).map Prod.fst).Pairwise
        (fun a b => dateLt a b = true) := by
      rw [hfst]
      exact monthKeys_pairwise rows
    rw [heq] at hp
    simp only [List.map_append, List.map_cons] at hp
    have hp2 := (List.pairwise_append.mp hp).2.1
    have hfwd := (List.pairwise_cons.mp hp2).1
    rw [heq] at hq'
    rcases List.mem_append.mp hq' with h1 | h2
    · have := hlt (m', q') h1
      rw [heqq] at this
      exact absurd this (lt_irrefl q)
    · rcases List.mem_cons.mp h2 with h3 | h4
      · simp only [Prod.mk.injEq] at h3
        rw [h3.1]
        exact dateLe_refl m
      · exact dateLe_of_lt m m' (hfwd m' (List.mem_map_of_mem Prod.fst h4))

/-- Witness for C6: on two months with equal totals, the peak is the earlier
month, and it indeed appears in the monthly summary. -/
theorem C6_monthly_aggregation_witness :
    (Date.mk 100 1, (7 : ℚ)) ∈ monthlySummary [tieRowA, tieRowB] "ridership" :=
  ((C6_monthly_aggregation [tieRowA, tieRowB] "ridership").2.2.2.2 ⟨100, 1⟩ 7
    (by simp [peakMonth, idxmaxBySnd, monthlySummary, monthKeys, sortedKeys, sortLe,
      insertLe, monthTotal, getVal, monthStart, dateLe, tieRowA, tieRowB,
      List.dedup, List.lookup])).1

/-! ## Hourly aggregation lemmas and theorem C5 -/

theorem natBle_trans (a b c : ℕ) (hab : Nat.ble a b = true) (hbc : Nat.ble b c = true) :
    Nat.ble a c = true := by
  rw [Nat.ble_eq] at *
  omega

theorem natBle_total (a b : ℕ) : (Nat.ble a b || Nat.ble b a) = true := by
  rcases Nat.le_total a b with h | h
  · rw [Bool.or_eq_true]
    exact Or.inl (Nat.ble_eq.mpr h)
  · rw [Bool.or_eq_true]
    exact Or.inr (Nat.ble_eq.mpr h)

theorem hourKeys_pairwise (rows : List HourlyRow) :
    (hourKeys rows).Pairwise (· < ·) := by
  unfold hourKeys
  have h1 := pairwise_sortedKeys Nat.ble natBle_trans natBle_total
      (rows.filterMap (fun r => r.hour))
  have h2 := nodup_sortedKeys Nat.ble (rows.filterMap (fun r => r.hour))
  exact (h1.and h2).imp (fun h => lt_of_le_of_ne (Nat.ble_eq.mp h.1) h.2)

theorem mem_hourKeys (rows : List HourlyRow) (h : ℕ) :
    h ∈ hourKeys rows ↔ ∃ r ∈ rows, r.hour = some h := by
  unfold hourKeys
  rw [mem_sortedKeys, List.mem_filterMap]

theorem mem_hourlyAvg (rows : List HourlyRow) (col : String) (h : ℕ) (q : ℚ) :
    (h, q) ∈ hourlyAvg rows col ↔ h ∈ hourKeys rows ∧ q = hourMean rows col h := by
  unfold hourlyAvg
  rw [List.mem_map]
  constructor
  · rintro ⟨k, hk, hkeq⟩
    simp only [Prod.mk.injEq] at hkeq
    obtain ⟨h1, h2⟩ := hkeq
    subst h1
    exact ⟨hk, h2.symm⟩
  · rintro ⟨hm, hq⟩
    exact ⟨h, hm, by rw [hq]⟩

/-- C5: hourly aggregation groups the category-filtered rows by hour and
reports, for each hour present, exactly the arithmetic mean of the detected
column over the rows with that hour; rows with a null hour are excluded (not
coerced to 0); the result is ascending by hour; and the reported peak hour is
the hour with the maximum average, with ties broken by the lowest hour. -/
theorem C5_hourly_aggregation (rows : List HourlyRow) (col : String) :
    ((hourlyAvg rows col).map Prod.fst).Pairwise (· < ·) ∧
    (∀ h : ℕ, (∃ q, (h, q) ∈ hourlyAvg rows col) ↔ ∃ r ∈ rows, r.hour = some h) ∧
    (∀ h q, (h, q) ∈ hourlyAvg rows col →
        q = ((rows.filter (fun r => r.hour == some h)).map (fun r => getValH r col)).sum
            / (((rows.filter (fun r => r.hour == some h)).length : ℚ))) ∧
    (∀ h, peakHour rows col = some h →
        ∃ q, (h, q) ∈ hourlyAvg rows col ∧
          ∀ h' q', (h', q') ∈ hourlyAvg rows col → q' ≤ q ∧ (q' = q → h ≤ h')) := by
  have hfst : (hourlyAvg rows col).map Prod.fst = hourKeys rows := by
    unfold hourlyAvg
    rw [List.map_map,
      show (Prod.fst ∘ fun h => (h, hourMean rows col h)) = id from rfl,
      List.map_id]
  refine ⟨?_, ?_, ?_, ?_⟩
  · rw [hfst]
    exact hourKeys_pairwise rows
  · intro h
    constructor
    · rintro ⟨q, hq⟩
      exact (mem_hourKeys rows h).mp ((mem_hourlyAvg rows col h q).mp hq).1
    · intro hex
      exact ⟨hourMean rows col h,
        (mem_hourlyAvg rows col h _).mpr ⟨(mem_hourKeys rows h).mpr hex, rfl⟩⟩
  · intro h q hq
    have hm := ((mem_hourlyAvg rows col h q).mp hq).2
    simpa [hourMean] using hm
  · intro h hpk
    obtain ⟨x, hx, hxh⟩ := Option.map_eq_some'.mp hpk
    obtain ⟨l₁, l₂, heq, hlt, hle⟩ := idxmaxBySnd_split (hourlyAvg rows col) x hx
    obtain ⟨hfstx, q⟩ : x.1 = h ∧ True := ⟨hxh, trivial⟩
    refine ⟨x.2, ?_, ?_⟩
    · rw [← hfstx]
      rw [heq]
      exact List.mem_append_right l₁ (by
        have : x = (x.1, x.2) := rfl
        exact this ▸ List.mem_cons_self _ _)
    · intro h' q' hq'
      refine ⟨?_, ?_⟩
      · have := hle (h', q') (by rw [← heq] at *; exact hq')
        simpa using this
      · intro heqq
        have hp : ((hourlyAvg rows col).map Prod.fst).Pairwise (· < ·) := by
          rw [hfst]
          exact hourKeys_pairwise rows
        rw [heq] at hp
        simp only [List.map_append, List.map_cons] at hp
        have hp2 := (List.pairwise_append.mp hp).2.1
        have hfwd := (List.pairwise_cons.mp hp2).1
        rw [heq] at hq'
        rcases List.mem_append.mp hq' with h1 | h2
        · have hlt' := hlt (h', q') h1
          rw [heqq] at hlt'
          exact absurd hlt' (lt_irrefl x.2)
        · rcases List.mem_cons.mp h2 with h3 | h4
          · have hh : h' = x.1 := congrArg Prod.fst h3
            rw [← hfstx]
            omega
          · rw [← hfstx]
            exact le_of_lt (hfwd h' (List.mem_map_of_mem Prod.fst h4))

/-- Witness for C5: with equal averages at hours 7 and 8 and one null-hour
row, the peak hour is 7 (lowest on ties) and appears among the averages. -/
theorem C5_hourly_aggregation_witness :
    ∃ q, (7, q) ∈ hourlyAvg [hRow7, hRow8, hRowNoTime] "ridership" ∧
      ∀ h' q', (h', q') ∈ hourlyAvg [hRow7, hRow8, hRowNoTime] "ridership" →
        q' ≤ q ∧ (q' = q → 7 ≤ h') :=
  (C5_hourly_aggregation [hRow7, hRow8, hRowNoTime] "ridership").2.2.2 7
    (by simp [peakHour, idxmaxBySnd, hourlyAvg, hourKeys, sortedKeys, sortLe, insertLe,
      hourMean, getValH, hRow7, hRow8, hRowNoTime, List.lookup, Nat.ble_eq])

/-! ## Theorems: C4 (Worker recommendation) -/

theorem workerRecommended_eq_filter (avg : List (ℕ × ℚ)) :
    workerRecommended avg
      = (avg.map Prod.fst).filter
          (fun h => (7 ≤ h && h ≤ 9) || (17 ≤ h && h ≤ 19)) := by
  unfold workerRecommended
  induction avg with
  | nil => rfl
  | cons p ps ih =>
    simp only [List.filter_cons, List.map_cons]
    by_cases hp : ((7 ≤ p.1 && p.1 ≤ 9) || (17 ≤ p.1 && p.1 ≤ 19)) = true
    · rw [if_pos hp, if_pos hp, List.map_cons, ih]
    · rw [if_neg hp, if_neg hp, ih]

/-- C4: in Worker mode the recommended set is exactly the hours present in
the per-hour series intersected with {7,8,9,17,18,19}, independent of the
ridership values; the displayed reference line in Worker mode is the 70th
percentile of the averages and plays no role in the selection. -/
theorem C4_worker_recommendation (avg : List (ℕ × ℚ)) :
    (∀ h : ℕ, h ∈ workerRecommended avg ↔
        h ∈ avg.map Prod.fst ∧ h ∈ [7, 8, 9, 17, 18, 19]) ∧
    (∀ avg' : List (ℕ × ℚ), avg.map Prod.fst = avg'.map Prod.fst →
        workerRecommended avg = workerRecommended avg') ∧
    displayedThreshold "Worker" avg = quantileLinear (7 / 10) (avg.map Prod.snd) := by
  refine ⟨?_, ?_, ?_⟩
  · intro h
    rw [workerRecommended_eq_filter, List.mem_filter]
    constructor
    · rintro ⟨hm, hcond⟩
      refine ⟨hm, ?_⟩
      simp only [Bool.or_eq_true, Bool.and_eq_true, decide_eq_true_eq] at hcond
      simp only [List.mem_cons, List.mem_singleton, List.not_mem_nil, or_false]
      omega
    · rintro ⟨hm, hcond⟩
      refine ⟨hm, ?_⟩
      simp only [List.mem_cons, List.mem_singleton, List.not_mem_nil, or_false] at hcond
      simp only [Bool.or_eq_true, Bool.and_eq_true, decide_eq_true_eq]
      omega
  · intro avg' hsame
    rw [workerRecommended_eq_filter, workerRecommended_eq_filter, hsame]
  · unfold displayedThreshold
    rw [if_neg (by decide)]

/-- Witness for C4: hour 8 is recommended for workers whenever present,
regardless of its ridership value. -/
theorem C4_worker_recommendation_witness :
    8 ∈ workerRecommended [(6, (100 : ℚ)), (8, 5), (18, 50)] :=
  ((C4_worker_recommendation [(6, (100 : ℚ)), (8, 5), (18, 50)]).1 8).mpr
    ⟨by decide, by decide⟩

/-! ## Theorems: C3 (Tourist recommendation) -/

theorem quantileLinear_eq_specPercentile (p : ℚ) (vs : List ℚ)
    (hp0 : 0 ≤ p) (hp1 : p ≤ 1) (hne : vs ≠ []) :
    quantileLinear p vs = specPercentile p vs := by
  have hsne : sortLe (fun a b => decide (a ≤ b)) vs ≠ [] := by
    intro hc
    apply hne
    have hperm := sortLe_perm (fun a b => decide (a ≤ b)) vs
    rw [hc] at hperm
    exact (hperm.nil_eq).symm
  simp only [quantileLinear, specPercentile]
  set s := sortLe (fun a b => decide (a ≤ b)) vs with hsdef
  set h : ℚ := p * ((s.length : ℚ) - 1) with hdef
  have hlen : 0 < s.length := List.length_pos.mpr hsne
  have hn1 : (0 : ℚ) ≤ (s.length : ℚ) - 1 := by
    have h1 : (1 : ℚ) ≤ (s.length : ℚ) := by exact_mod_cast hlen
    linarith
  have h0 : 0 ≤ h := by
    rw [hdef]
    exact mul_nonneg hp0 hn1
  have hle : h ≤ (s.length : ℚ) - 1 := by
    rw [hdef]
    exact mul_le_of_le_one_left hn1 hp1
  have hfl0 : 0 ≤ ⌊h⌋ := Int.floor_nonneg.mpr h0
  have hcast : (((⌊h⌋).toNat : ℕ) : ℚ) = ((⌊h⌋ : ℤ) : ℚ) := by
    rw [← Int.cast_natCast, Int.toNat_of_nonneg hfl0]
  rw [hcast]
  by_cases hfr : ((⌊h⌋ : ℤ) : ℚ) = h
  · rw [hfr, sub_self, zero_mul, zero_mul, add_zero]
  · have hlt : ((⌊h⌋ : ℤ) : ℚ) < h := lt_of_le_of_ne (Int.floor_le h) hfr
    have hne1 : h ≠ (s.length : ℚ) - 1 := by
      intro hc
      apply hfr
      have hcast2 : ((s.length : ℚ) - 1) = (((s.length : ℤ) - 1 : ℤ) : ℚ) := by
        push_cast
        ring
      rw [hc, hcast2, Int.floor_intCast]
    have hlt2 : h < (s.length : ℚ) - 1 := lt_of_le_of_ne hle hne1
    have hfli : ⌊h⌋ < (s.length : ℤ) - 1 := by
      have h1 : ((⌊h⌋ : ℤ) : ℚ) < (((s.length : ℤ) - 1 : ℤ) : ℚ) := by
        push_cast
        linarith [Int.floor_le h]
      exact_mod_cast h1
    have hidx : (⌊h⌋).toNat + 1 < s.length := by omega
    have hceil : ⌈h⌉ = ⌊h⌋ + 1 := by
      have hub : ⌈h⌉ ≤ ⌊h⌋ + 1 := by
        apply Int.ceil_le.mpr
        push_cast
        linarith [Int.lt_floor_add_one h]
      have hlb : ⌊h⌋ < ⌈h⌉ := by
        have h2 : ((⌊h⌋ : ℤ) : ℚ) < ((⌈h⌉ : ℤ) : ℚ) := lt_of_lt_of_le hlt (Int.le_ceil h)
        exact_mod_cast h2
      omega
    have htn : (⌈h⌉).toNat = (⌊h⌋).toNat + 1 := by omega
    rw [htn]
    simp only [List.getD_eq_getElem?_getD]
    rw [List.getElem?_eq_getElem hidx]
    simp only [Option.getD_some]

/-- C3: in Tourist mode, for every non-empty per-hour average series, the
recommendation threshold equals the 30th percentile of the averages under
the linear-interpolation definition (index `0.3·(n-1)` over the sorted
values), and the recommended set is exactly the hours whose average is `≤`
that threshold (inclusive boundary). -/
theorem C3_tourist_recommendation (avg : List (ℕ × ℚ)) (hne : avg ≠ []) :
    touristThreshold avg = specPercentile (3 / 10) (avg.map Prod.snd) ∧
    ∀ h : ℕ, h ∈ touristRecommended avg ↔
      ∃ q, (h, q) ∈ avg ∧ q ≤ touristThreshold avg := by
  constructor
  · exact quantileLinear_eq_specPercentile (3 / 10) (avg.map Prod.snd)
      (by norm_num) (by norm_num) (by simpa using hne)
  · intro h
    unfold touristRecommended
    rw [List.mem_map]
    constructor
    · rintro ⟨x, hx, hxh⟩
      rw [List.mem_filter] at hx
      refine ⟨x.2, ?_, ?_⟩
      · rw [← hxh]
        exact hx.1
      · simpa using hx.2
    · rintro ⟨q, hq, hle⟩
      exact ⟨(h, q), List.mem_filter.mpr ⟨hq, by simpa using hle⟩, rfl⟩

/-- Witness for C3: the threshold of a concrete 3-hour series equals the
spec's linear-interpolation percentile of the same values. -/
theorem C3_tourist_recommendation_witness :
    touristThreshold [(0, (50 : ℚ)), (6, 10), (7, 200)]
      = specPercentile (3 / 10) ([(0, (50 : ℚ)), (6, 10), (7, 200)].map Prod.snd) :=
  (C3_tourist_recommendation [(0, (50 : ℚ)), (6, 10), (7, 200)] (by decide)).1

/-! ## Theorems: C2 (empty filter result) -/

/-- C2 counterexample: on a valid selection matching zero hourly rows, the
heatmap block still renders (an empty pivot) instead of a no-data message,
and the recommendation block is silently skipped with no message — two of the
four outputs do not report the "no data" signal the claim requires. -/
theorem C2_counterexample :
    (categoryFilter sampleHourlyTable "Weekend" "ZZZ").rows = [] ∧
    heatmapBlock (categoryFilter sampleHourlyTable "Weekend" "ZZZ") = .shown [] ∧
    heatmapBlock (categoryFilter sampleHourlyTable "Weekend" "ZZZ") ≠ .warnNoData ∧
    recommendationBlock (categoryFilter sampleHourlyTable "Weekend" "ZZZ") "Tourist"
      = .skipped ∧
    recommendationBlock (categoryFilter sampleHourlyTable "Weekend" "ZZZ") "Tourist"
      ≠ .warnNoData := by
  refine ⟨by decide, by decide, by decide, by decide, by decide⟩

/-- C2 (amended): on an empty filtered result no operation raises — but only
the monthly and hourly blocks report the explicit no-data warning; the
heatmap block still renders an empty pivot (when the `day_type` and
`ridership` columns exist), and the recommendation block is skipped with no
signal at all. -/
theorem C2_empty_filter_degradation (t : HourlyTable)
    (dayTypeSel lineSel role : String) (numericCols : List String) (c : String)
    (hdet : detectColDaily numericCols = some c)
    (hempty : (categoryFilter t dayTypeSel lineSel).rows = []) :
    monthlyBlock numericCols [] = .warnNoData ∧
    hourlyBlock (categoryFilter t dayTypeSel lineSel) = .warnNoData ∧
    (t.cols.contains "day_type" = true → t.cols.contains "ridership" = true →
        heatmapBlock (categoryFilter t dayTypeSel lineSel) = .shown [] ∧
        heatmapBlock (categoryFilter t dayTypeSel lineSel) ≠ .warnNoData) ∧
    recommendationBlock (categoryFilter t dayTypeSel lineSel) role = .skipped := by
  refine ⟨?_, ?_, ?_, ?_⟩
  · unfold monthlyBlock
    rw [hdet]
    rfl
  · unfold hourlyBlock
    rw [hempty]
    rfl
  · intro hday hrid
    have heq : heatmapBlock (categoryFilter t dayTypeSel lineSel) = .shown [] := by
      unfold heatmapBlock
      rw [show (categoryFilter t dayTypeSel lineSel).cols = t.cols from rfl,
        if_pos hday, if_pos hrid, hempty]
      rfl
    exact ⟨heq, by rw [heq]; intro hcon; exact Rendered.noConfusion hcon⟩
  · unfold recommendationBlock
    rw [hempty]
    rfl

/-- Witness for C2 (amended), on the spec's own empty-filter scenario
(`day_type="Weekend"`, `line="ZZZ"`). -/
theorem C2_empty_filter_degradation_witness :
    monthlyBlock ["ridership", "hour"] [] = .warnNoData ∧
    hourlyBlock (categoryFilter sampleHourlyTable "Weekend" "ZZZ") = .warnNoData ∧
    recommendationBlock (categoryFilter sampleHourlyTable "Weekend" "ZZZ") "Tourist"
      = .skipped := by
  have happ := C2_empty_filter_degradation sampleHourlyTable "Weekend" "ZZZ" "Tourist"
      ["ridership", "hour"] "ridership" (by decide) (by decide)
  exact ⟨happ.1, happ.2.1, happ.2.2.2⟩

/-! ## Theorems: C10 (hard-coded "ridership" column) -/

/-- C10: the heatmap pivot and the recommendation read the literal
`"ridership"` column rather than the auto-detected one: when no column of
that exact name exists, both raise a `KeyError` (even when detection accepts
another column); they produce output exactly when a `"ridership"` column
exists. -/
theorem C10_hardcoded_ridership_column (t : HourlyTable) (role : String) :
    (t.cols.contains "ridership" = false →
        (t.cols.contains "day_type" = true → heatmapBlock t = .raised .keyError) ∧
        (t.rows ≠ [] → recommendationBlock t role = .raised .keyError)) ∧
    (t.cols.contains "ridership" = true →
        (t.cols.contains "day_type" = true →
            heatmapBlock t = .shown (pivotMatrix t.rows)) ∧
        (t.rows ≠ [] → ∃ out, recommendationBlock t role = .shown out)) := by
  constructor
  · intro hno
    constructor
    · intro hday
      unfold heatmapBlock
      rw [if_pos hday, if_neg (by rw [hno]; exact Bool.false_ne_true)]
    · intro hrows
      unfold recommendationBlock
      have hie : t.rows.isEmpty = false := by
        cases hr : t.rows with
        | nil => exact absurd hr hrows
        | cons a l => rfl
      rw [if_neg (by simp [hie]), if_neg (by rw [hno]; exact Bool.false_ne_true)]
  · intro hyes
    constructor
    · intro hday
      unfold heatmapBlock
      rw [if_pos hday, if_pos hyes]
    · intro hrows
      unfold recommendationBlock
      have hie : t.rows.isEmpty = false := by
        cases hr : t.rows with
        | nil => exact absurd hr hrows
        | cons a l => rfl
      rw [if_neg (by simp [hie]), if_pos hyes]
      by_cases hrole : (role == "Tourist") = true
      · rw [if_pos hrole]
        exact ⟨_, rfl⟩
      · rw [if_neg hrole]
        exact ⟨_, rfl⟩

/-- Witness for C10: on a table whose count column is `passenger_count`,
auto-detection succeeds, yet the heatmap and the recommendation raise
`KeyError`. -/
theorem C10_hardcoded_ridership_column_witness :
    detectColHourly passengerTable.numericCols = .ok "passenger_count" ∧
    heatmapBlock passengerTable = .raised .keyError ∧
    recommendationBlock passengerTable "Tourist" = .raised .keyError :=
  ⟨by rfl,
   ((C10_hardcoded_ridership_column passengerTable "Tourist").1 (by decide)).1 (by decide),
   ((C10_hardcoded_ridership_column passengerTable "Tourist").1 (by decide)).2 (by decide)⟩

/-! ## Theorem: C9 (cache immutability and idempotent recomputation) -/

/-- C9: a recomputation pass hands the cached tables back unchanged — the
boolean-mask filters copy, so the `month`/`hour` column assignments never
touch the caches — and therefore any number of passes leaves the cache fixed
and reproduces identical outputs. -/
theorem C9_cache_immutability_idempotence (s : SessionState) (sel : Selections) :
    (runPipeline s sel).1 = s ∧
    (∀ n : ℕ, (fun st => (runPipeline st sel).1)^[n] s = s) ∧
    (∀ n : ℕ,
        (runPipeline ((fun st => (runPipeline st sel).1)^[n] s) sel).2
          = (runPipeline s sel).2) := by
  have hiter : ∀ n : ℕ, (fun st => (runPipeline st sel).1)^[n] s = s := by
    intro n
    induction n with
    | zero => rfl
    | succ k ih =>
      rw [Function.iterate_succ_apply', ih]
      rfl
  refine ⟨rfl, hiter, ?_⟩
  intro n
  rw [hiter n]
